import Mathlib

/-!
# Verification of the parseroni validator-combinator library

Shallow embedding of `src/parse.ts`. Dynamically-typed JS values (the
library is designed for `JSON.parse` output) are modelled by `JSValue`;
numbers are modelled by `Int` (the claims exercise no float-specific
behavior). JS objects are association lists with, as at the source's
creation sites, distinct keys; `for (const key in o)` iteration order is
modelled as list order (true in JS for non-integer-like string keys).
A `Result` carries untyped `JSValue` payloads, since at runtime the
TypeScript type parameters are erased.
-/

set_option autoImplicit false

namespace Parseroni

/-- A JSON-compatible dynamically-typed runtime value, as handed to the
validators. `undef` is JS `undefined` (the absence sentinel), distinct
from `null`. -/
inductive JSValue where
  | null
  | undefined
  | bool (b : Bool)
  | num (n : Int)
  | str (s : String)
  | arr (elems : List JSValue)
  | obj (fields : List (String × JSValue))

/-- JS truthiness, for the source's `value ? a : b`. Falsy values are
`null`, `undefined`, `false`, `0` and the empty string. -/
def truthy : JSValue → Bool
  | .null => false
  | .undefined => false
  | .bool b => b
  | .num n => n != 0
  | .str s => s ≠ ""
  | .arr _ => true
  | .obj _ => true

/-- JS `typeof` tag of a value (`typeof null` is "object", arrays are
"object"). -/
def typeofTag : JSValue → String
  | .null => "object"
  | .undefined => "undefined"
  | .bool _ => "boolean"
  | .num _ => "number"
  | .str _ => "string"
  | .arr _ => "object"
  | .obj _ => "object"

mutual

/-- JS string conversion as used by template literals. -/
def jsToString : JSValue → String
  | .null => "null"
  | .undefined => "undefined"
  | .bool true => "true"
  | .bool false => "false"
  | .num n => toString n
  | .str s => s
  | .arr elems => String.intercalate "," (jsToStringElems elems)
  | .obj _ => "[object Object]"

/-- Array elements under `Array.prototype.toString`: `null` and
`undefined` entries render as the empty string. -/
def jsToStringElems : List JSValue → List String
  | [] => []
  | .null :: rest => "" :: jsToStringElems rest
  | .undefined :: rest => "" :: jsToStringElems rest
  | v :: rest => jsToString v :: jsToStringElems rest

end

/-- `Result<I,O>`: the two-variant discriminated union from the source.
`failure` carries the offending value and a human-readable reason. -/
inductive Result where
  | success (value : JSValue)
  | failure (value : JSValue) (reason : String)

/-- `Parser<I,O>`: a function from a value to a `Result`. -/
abbrev Parser := JSValue → Result

/-- `success(value)` constructor. -/
def success (value : JSValue) : Result := .success value

/-- `failure(value, reason)` constructor. -/
def failure (value : JSValue) (reason : String) : Result := .failure value reason

/-- `isSuccess`: `result.type === 'success'`. -/
def isSuccess : Result → Bool
  | .success _ => true
  | .failure _ _ => false

/-- `isFailure`: `result.type === 'failure'`. -/
def isFailure : Result → Bool
  | .success _ => false
  | .failure _ _ => true

/-- `failTypeOf(value)`: failure with reason `'typeof value is ' + (typeof value)`. -/
def failTypeOf (value : JSValue) : Result :=
  failure value ("typeof value is " ++ typeofTag value)

/-- `keyedFailure(value, key, failure)`: re-wraps a child failure's reason
with the path segment `Failed at '<key>': ` and replaces its value by the
enclosing input. The source's `key` is `string | number`; callers pass
indices through `toString`. -/
def keyedFailure (value : JSValue) (key : String) (reason : String) : Result :=
  failure value ("Failed at '" ++ key ++ "': " ++ reason)

/-- `optional(validator)`: `value === null ? success(null) : validator(value)`. -/
def optional (validator : Parser) : Parser :=
  fun value =>
    match value with
    | .null => success .null
    | v => validator v

/-- `voidable(validator)`: `value === undefined ? success(undefined) : validator(value)`. -/
def voidable (validator : Parser) : Parser :=
  fun value =>
    match value with
    | .undefined => success .undefined
    | v => validator v

/-- `parseString`: succeeds iff `typeof value === 'string'`. -/
def parseString (value : JSValue) : Result :=
  match value with
  | .str _ => success value
  | _ => failTypeOf value

/-- `parseNumber`: succeeds iff `typeof value === 'number'`. -/
def parseNumber (value : JSValue) : Result :=
  match value with
  | .num _ => success value
  | _ => failTypeOf value

/-- `parseUndefined`: succeeds iff `value === undefined`. -/
def parseUndefined (value : JSValue) : Result :=
  match value with
  | .undefined => success .undefined
  | _ => failTypeOf value

/-- `parseBoolean`: succeeds iff `typeof value === 'boolean'`. -/
def parseBoolean (value : JSValue) : Result :=
  match value with
  | .bool _ => success value
  | _ => failTypeOf value

/-- `parseAnyValue`: always succeeds with the input. -/
def parseAnyValue (value : JSValue) : Result := success value

/-- `parseObject`: succeeds iff `typeof value === 'object' && value !== null`.
Of the runtime categories, exactly arrays and plain objects satisfy both
conjuncts (null has typeof "object" but is excluded). -/
def parseObject (value : JSValue) : Result :=
  match value with
  | .arr _ => success value
  | .obj _ => success value
  | _ => failTypeOf value

/-- `parseArray`: `Array.isArray(value) ? success(value) : failure(value, 'value is not Array.isArray')`. -/
def parseArray (value : JSValue) : Result :=
  match value with
  | .arr _ => success value
  | _ => failure value "value is not Array.isArray"

/-- JS `===` on the scalar literals `parseExactly` is restricted to
(`S extends string | number | boolean`). Composite operands compare by
reference in JS; the embedding has no references, and `parseExactly` never
receives a composite option, so those cases are modelled as false. -/
def jsStrictEq : JSValue → JSValue → Bool
  | .null, .null => true
  | .undefined, .undefined => true
  | .bool a, .bool b => a == b
  | .num a, .num b => a == b
  | .str a, .str b => a == b
  | _, _ => false

/-- `parseExactly(option)`: succeeds iff `value === option`; on failure the
reason is the template string `is not <option>`. -/
def parseExactly (option : JSValue) : Parser :=
  fun value =>
    if jsStrictEq value option then success option
    else failure value ("is not " ++ jsToString option)

/-- JS own-property read `value[key]` on JSON-compatible values: object
field lookup, array canonical-index / `length` access, string
character / `length` access; `undefined` everywhere else (scalars have no
own properties). -/
def getProp (value : JSValue) (key : String) : JSValue :=
  match value with
  | .obj fields => (fields.lookup key).getD .undefined
  | .arr elems =>
    if key = "length" then .num elems.length
    else
      match key.toNat? with
      | some i => if toString i = key then (elems.get? i).getD .undefined else .undefined
      | none => .undefined
  | .str s =>
    if key = "length" then .num s.length
    else
      match key.toNat? with
      | some i =>
        if toString i = key then
          ((s.data.get? i).map fun c => .str (String.singleton c)).getD .undefined
        else .undefined
      | none => .undefined
  | _ => .undefined

/-- The field read in `parseObjectOf`: `value ? value[key] : undefined` —
on a falsy input every key reads as `undefined`. -/
def getField (value : JSValue) (key : String) : JSValue :=
  if truthy value then getProp value key else .undefined

/-- The `for (const key in validators)` loop body of `parseObjectOf`,
accumulating `result[key] = parsed.value` in iteration order. -/
def parseObjectOfGo (value : JSValue) : List (String × Parser) → List (String × JSValue) → Result
  | [], acc => success (.obj acc)
  | (key, p) :: rest, acc =>
    match p (getField value key) with
    | .failure _ reason => keyedFailure value key reason
    | .success v => parseObjectOfGo value rest (acc ++ [(key, v)])

/-- `parseObjectOf(validators)`: the fixed-shape record validator. The
mapping's declared fields are modelled as an association list in
declaration order. -/
def parseObjectOf (validators : List (String × Parser)) : Parser :=
  fun value => parseObjectOfGo value validators []

/-- The own enumerable entries iterated by `for (const key in value)`:
an object's fields in insertion order; an array's indices (as strings)
in ascending order. -/
def jsOwnEntries : JSValue → List (String × JSValue)
  | .obj fields => fields
  | .arr elems => elems.enum.map fun p => (toString p.1, p.2)
  | _ => []

/-- The `for (const key in value)` loop body of `parseIndexedObjectOf`. -/
def parseIndexedObjectOfGo (p : Parser) (value : JSValue) :
    List (String × JSValue) → List (String × JSValue) → Result
  | [], acc => success (.obj acc)
  | (key, v) :: rest, acc =>
    match p v with
    | .failure _ reason => keyedFailure value key reason
    | .success pv => parseIndexedObjectOfGo p value rest (acc ++ [(key, pv)])

/-- `parseIndexedObjectOf(parser)`: the homogeneous key-indexed-map
validator. Rejects `value === null || value == undefined` (loose `==`:
only `undefined` remains once null is excluded), then
`typeof value !== 'object'` (arrays pass, with index keys). -/
def parseIndexedObjectOf (p : Parser) : Parser :=
  fun value =>
    match value with
    | .null => failure .null "value is null or undefined"
    | .undefined => failure .undefined "value is null or undefined"
    | v =>
      if typeofTag v = "object" then parseIndexedObjectOfGo p v (jsOwnEntries v) []
      else failTypeOf v

/-- `mapFailure(result, next)`: applies `next` to the failure, passes a
success through. `next` receives the failure's value and reason.
Monomorphic at `Result`, which covers every use site in the source. -/
def mapFailure (result : Result) (next : JSValue → String → Result) : Result :=
  match result with
  | .failure v r => next v r
  | s => s

/-- `mapSuccess(result, next)`: applies `next` to the success value,
passes a failure through. -/
def mapSuccess (result : Result) (next : JSValue → Result) : Result :=
  match result with
  | .success v => next v
  | f => f

/-- `mapResult(result, success, failure)`: the full fold over both
variants. -/
def mapResult (result : Result) (onSucc : JSValue → Result)
    (onFail : JSValue → String → Result) : Result :=
  match result with
  | .success v => onSucc v
  | .failure fv fr => onFail fv fr

/-- `mapParser(validator, next)`: runs the validator, feeds a success
into `next`, and re-wraps any failure of the combined result — whether it
came from the validator or from `next` — as `{...failure, value}`, i.e.
with its value replaced by the outer input and its reason kept. -/
def mapParser (validator : Parser) (next : JSValue → Result) : Parser :=
  fun value =>
    mapFailure (mapSuccess (validator value) next) (fun _ reason => failure value reason)

/-- `Array.prototype.reduce` with the element index passed to the
callback, as used by `parseArrayOf`. -/
def reduceIdx {α β : Type} (f : β → α → Nat → β) : List α → Nat → β → β
  | [], _, acc => acc
  | a :: rest, i, acc => reduceIdx f rest (i + 1) (f acc a i)

/-- The reduce callback of `parseArrayOf`: on a still-successful
accumulator, either append the validated member (`items.concat([valid])`)
or produce the keyed failure over the whole array. The accumulator's
success payload is by construction always an array. -/
def parseArrayOfStep (validator : Parser) (whole : List JSValue)
    (acc : Result) (member : JSValue) (index : Nat) : Result :=
  mapSuccess acc fun items =>
    mapResult (validator member)
      (fun valid =>
        match items with
        | .arr existing => success (.arr (existing ++ [valid]))
        | other => success other)
      (fun _ reason => keyedFailure (.arr whole) (toString index) reason)

/-- `parseArrayOf(validator)`: `mapParser(parseArray, value => value.reduce(..., success([])))`.
The transform only ever receives an array (guaranteed by `parseArray`);
the non-array branch is dead code. -/
def parseArrayOf (validator : Parser) : Parser :=
  mapParser parseArray fun value =>
    match value with
    | .arr elems => reduceIdx (parseArrayOfStep validator elems) elems 0 (success (.arr []))
    | other => failure other "value is not Array.isArray"

/-- `parseOneOf(parser, ...parsers)`: with no rest parsers, returns
`parser` itself; otherwise folds `mapFailure(result, () => validator(value))`
over the rest parsers starting from `parser(value)`, and re-wraps a total
failure into the synthesized count-based reason. -/
def parseOneOf (p : Parser) (parsers : List Parser) : Parser :=
  match parsers with
  | [] => p
  | _ =>
    fun value =>
      mapFailure
        (parsers.foldl (fun result validator => mapFailure result (fun _ _ => validator value))
          (p value))
        (fun _ _ =>
          failure value
            ("'" ++ jsToString value ++ "' did not match any of " ++
              toString (parsers.length + 1) ++ " validators"))

/-! ## General lemmas about results -/

theorem isSuccess_iff_exists {r : Result} : isSuccess r = true ↔ ∃ v, r = .success v := by
  cases r <;> simp [isSuccess]

theorem isFailure_iff_exists {r : Result} :
    isFailure r = true ↔ ∃ v reason, r = .failure v reason := by
  cases r <;> simp [isFailure]

theorem isSuccess_eq_not_isFailure (r : Result) : isSuccess r = !isFailure r := by
  cases r <;> rfl

/-! ## Claim theorems: result model and wrappers -/

/-- C10: for every `Result`, `isSuccess` and `isFailure` are exhaustive
and mutually exclusive — exactly one of them holds, no result is both or
neither variant. -/
theorem isSuccess_isFailure_partition (r : Result) :
    (isSuccess r || isFailure r) = true ∧ (isSuccess r && isFailure r) = false := by
  cases r <;> exact ⟨rfl, rfl⟩

/-- C7: `optional(v)` short-circuits exactly on literal `null` (returning
`success null` without consulting `v`) and delegates every non-null input
— including `undefined` — unchanged to `v`; `voidable(v)` short-circuits
exactly on `undefined` and delegates every other input — including `null`
— unchanged to `v`. Null and absence are never conflated. -/
theorem optional_voidable_spec :
    (∀ v : Parser, optional v .null = success .null) ∧
    (∀ (v : Parser) (x : JSValue), x ≠ .null → optional v x = v x) ∧
    (∀ v : Parser, voidable v .undefined = success .undefined) ∧
    (∀ (v : Parser) (x : JSValue), x ≠ .undefined → voidable v x = v x) := by
  refine ⟨fun v => rfl, ?_, fun v => rfl, ?_⟩ <;>
    · intro v x hx
      cases x <;> first | rfl | exact absurd rfl hx

/-- Witness for C7 at concrete inputs: `optional` bypasses on `null` but
delegates `undefined`; `voidable` bypasses on `undefined` but delegates
`null`. -/
theorem optional_voidable_spec_witness :
    optional parseBoolean .null = success .null ∧
    optional parseBoolean .undefined = parseBoolean .undefined ∧
    voidable parseBoolean .undefined = success .undefined ∧
    voidable parseBoolean .null = parseBoolean .null :=
  ⟨optional_voidable_spec.1 parseBoolean,
   optional_voidable_spec.2.1 parseBoolean .undefined (by simp),
   optional_voidable_spec.2.2.1 parseBoolean,
   optional_voidable_spec.2.2.2 parseBoolean .null (by simp)⟩

/-! ## Claim theorems: scalar validators -/

/-- Counterexample to C4: the generic-sequence validator `parseArray`
does not use the `typeof value is <tag>` reason — on the mismatched input
`5` its reason is the distinct string `value is not Array.isArray`. -/
theorem scalar_reason_counterexample :
    parseArray (.num 5) = failure (.num 5) "value is not Array.isArray" ∧
    ("value is not Array.isArray" : String) ≠ "typeof value is " ++ typeofTag (.num 5) :=
  ⟨rfl, by decide⟩

/-- C4 (amended): on every input of a mismatched runtime category, the
string/number/boolean/undefined/generic-object validators fail with the
original input as value and reason exactly `typeof value is <typeof-tag>`;
the unconstrained validator never fails; the generic-sequence validator
fails with the original input as value but with the reason
`value is not Array.isArray` instead of the type-tag phrasing. -/
theorem scalar_failure_spec :
    (∀ v : JSValue, (∀ s, v ≠ .str s) →
      parseString v = failure v ("typeof value is " ++ typeofTag v)) ∧
    (∀ v : JSValue, (∀ n, v ≠ .num n) →
      parseNumber v = failure v ("typeof value is " ++ typeofTag v)) ∧
    (∀ v : JSValue, (∀ b, v ≠ .bool b) →
      parseBoolean v = failure v ("typeof value is " ++ typeofTag v)) ∧
    (∀ v : JSValue, v ≠ .undefined →
      parseUndefined v = failure v ("typeof value is " ++ typeofTag v)) ∧
    (∀ v : JSValue, isFailure (parseAnyValue v) = false) ∧
    (∀ v : JSValue, (∀ es, v ≠ .arr es) → (∀ fs, v ≠ .obj fs) →
      parseObject v = failure v ("typeof value is " ++ typeofTag v)) ∧
    (∀ v : JSValue, (∀ es, v ≠ .arr es) →
      parseArray v = failure v "value is not Array.isArray") := by
  refine ⟨?_, ?_, ?_, ?_, fun v => rfl, ?_, ?_⟩
  · intro v h; cases v <;> first | rfl | exact absurd rfl (h _)
  · intro v h; cases v <;> first | rfl | exact absurd rfl (h _)
  · intro v h; cases v <;> first | rfl | exact absurd rfl (h _)
  · intro v h; cases v <;> first | rfl | exact absurd rfl h
  · intro v h1 h2; cases v <;> first | rfl | exact absurd rfl (h1 _) | exact absurd rfl (h2 _)
  · intro v h; cases v <;> first | rfl | exact absurd rfl (h _)

/-- Witness for C4 (amended) at concrete mismatched inputs, including the
null input to the generic-object validator (typeof tag "object"). -/
theorem scalar_failure_spec_witness :
    parseString (.num 7) = failure (.num 7) "typeof value is number" ∧
    parseNumber (.str "x") = failure (.str "x") "typeof value is string" ∧
    parseBoolean .null = failure .null "typeof value is object" ∧
    parseUndefined .null = failure .null "typeof value is object" ∧
    isFailure (parseAnyValue .null) = false ∧
    parseObject .null = failure .null "typeof value is object" ∧
    parseArray (.num 6) = failure (.num 6) "value is not Array.isArray" :=
  ⟨scalar_failure_spec.1 (.num 7) (fun s => by simp),
   scalar_failure_spec.2.1 (.str "x") (fun n => by simp),
   scalar_failure_spec.2.2.1 .null (fun b => by simp),
   scalar_failure_spec.2.2.2.1 .null (by simp),
   scalar_failure_spec.2.2.2.2.1 .null,
   scalar_failure_spec.2.2.2.2.2.1 .null (fun es => by simp) (fun fs => by simp),
   scalar_failure_spec.2.2.2.2.2.2 (.num 6) (fun es => by simp)⟩

/-! ## Claim theorems: transformation combinator -/

/-- Counterexample to C3: a failure reported by the transform does *not*
keep the value the transform reported — `mapParser`'s outer `mapFailure`
rewrites it to the outer input. With outer input `1` and a transform that
reports a failure with value `99`, the combinator returns value `1`. -/
theorem mapParser_transform_value_counterexample :
    mapParser parseAnyValue (fun _ => .failure (.num 99) "bad") (.num 1)
      = .failure (.num 1) "bad" ∧
    Result.failure (.num 1) "bad" ≠ Result.failure (.num 99) "bad" := by
  refine ⟨rfl, fun h => ?_⟩
  injection h with h1 _
  injection h1 with h2
  exact absurd h2 (by decide)

/-- C3 (amended): `mapParser(child, transform)` propagates a child
failure with its value rewritten to the original outer input and its
reason kept; on child success it invokes the transform, returning a
transform success as-is, while a transform failure has its value likewise
rewritten to the outer input (its reason kept). -/
theorem mapParser_spec :
    (∀ (validator : Parser) (next : JSValue → Result) (value fv : JSValue) (r : String),
      validator value = .failure fv r →
      mapParser validator next value = .failure value r) ∧
    (∀ (validator : Parser) (next : JSValue → Result) (value v w : JSValue),
      validator value = .success v → next v = .success w →
      mapParser validator next value = .success w) ∧
    (∀ (validator : Parser) (next : JSValue → Result) (value v nfv : JSValue) (nr : String),
      validator value = .success v → next v = .failure nfv nr →
      mapParser validator next value = .failure value nr) := by
  refine ⟨?_, ?_, ?_⟩
  · intro validator next value fv r h
    simp [mapParser, mapSuccess, mapFailure, failure, h]
  · intro validator next value v w h1 h2
    simp [mapParser, mapSuccess, mapFailure, h1, h2]
  · intro validator next value v nfv nr h1 h2
    simp [mapParser, mapSuccess, mapFailure, failure, h1, h2]

/-- Witness for C3 (amended): a child failure is reframed to the outer
input; a transform success passes through; a transform failure is
reframed to the outer input. -/
theorem mapParser_spec_witness :
    mapParser parseNumber (fun v => .success v) (.str "q") = .failure (.str "q") "typeof value is string" ∧
    mapParser parseNumber (fun v => .success v) (.num 4) = .success (.num 4) ∧
    mapParser parseNumber (fun _ => .failure (.num 50) "too big") (.num 4)
      = .failure (.num 4) "too big" :=
  ⟨mapParser_spec.1 parseNumber _ (.str "q") (.str "q") "typeof value is string" rfl,
   mapParser_spec.2.1 parseNumber _ (.num 4) (.num 4) (.num 4) rfl rfl,
   mapParser_spec.2.2 parseNumber _ (.num 4) (.num 4) (.num 50) "too big" rfl rfl⟩

/-! ## Record validator lemmas -/

theorem getField_obj (fields : List (String × JSValue)) (key : String) :
    getField (.obj fields) key = (fields.lookup key).getD .undefined := rfl

theorem parseObjectOfGo_first_failure (value : JSValue) :
    ∀ (pre : List (String × Parser)) (k : String) (p : Parser) (post : List (String × Parser))
      (fv : JSValue) (r : String) (acc : List (String × JSValue)),
    (∀ kp ∈ pre, isSuccess (kp.2 (getField value kp.1)) = true) →
    p (getField value k) = .failure fv r →
    parseObjectOfGo value (pre ++ (k, p) :: post) acc
      = .failure value ("Failed at '" ++ k ++ "': " ++ r) := by
  intro pre
  induction pre with
  | nil =>
    intro k p post fv r acc _ hf
    simp [parseObjectOfGo, hf, keyedFailure, failure]
  | cons kp0 pre ih =>
    intro k p post fv r acc hpre hf
    obtain ⟨k0, p0⟩ := kp0
    have h0 : isSuccess (p0 (getField value k0)) = true := hpre (k0, p0) (List.mem_cons_self _ _)
    obtain ⟨v0, hv0⟩ := isSuccess_iff_exists.mp h0
    simp only [List.cons_append, parseObjectOfGo, hv0]
    exact ih k p post fv r _ (fun kp hkp => hpre kp (List.mem_cons_of_mem _ hkp)) hf

theorem parseObjectOfGo_success (value : JSValue) (w : String × Parser → JSValue) :
    ∀ (validators : List (String × Parser)) (acc : List (String × JSValue)),
    (∀ kp ∈ validators, kp.2 (getField value kp.1) = .success (w kp)) →
    parseObjectOfGo value validators acc
      = .success (.obj (acc ++ validators.map fun kp => (kp.1, w kp))) := by
  intro validators
  induction validators with
  | nil => intro acc _; simp [parseObjectOfGo, success]
  | cons kp0 rest ih =>
    intro acc h
    obtain ⟨k0, p0⟩ := kp0
    have h0 : p0 (getField value k0) = .success (w (k0, p0)) := h (k0, p0) (List.mem_cons_self _ _)
    simp only [parseObjectOfGo, h0]
    have := ih (acc ++ [(k0, w (k0, p0))]) (fun kp hkp => h kp (List.mem_cons_of_mem _ hkp))
    simpa using this

theorem parseObjectOfGo_isSuccess (value : JSValue) :
    ∀ (validators : List (String × Parser)) (acc : List (String × JSValue)),
    (∀ kp ∈ validators, isSuccess (kp.2 (getField value kp.1)) = true) →
    isSuccess (parseObjectOfGo value validators acc) = true := by
  intro validators
  induction validators with
  | nil => intro acc _; rfl
  | cons kp0 rest ih =>
    intro acc h
    obtain ⟨k0, p0⟩ := kp0
    have h0 : isSuccess (p0 (getField value k0)) = true := h (k0, p0) (List.mem_cons_self _ _)
    obtain ⟨v0, hv0⟩ := isSuccess_iff_exists.mp h0
    simp only [parseObjectOfGo, hv0]
    exact ih _ (fun kp hkp => h kp (List.mem_cons_of_mem _ hkp))

/-! ## Claim theorems: record validator -/

/-- C1: the record validator reads a missing key of an object input as
`undefined`, iterates declared fields in order, and stops at the first
field whose child validator fails — the remaining fields (`post`) never
influence the outcome — returning a failure whose value is the whole
input record and whose reason is `Failed at '<fieldName>': <child reason>`. -/
theorem parseObjectOf_short_circuit :
    (∀ (fields : List (String × JSValue)) (key : String),
      fields.lookup key = none → getField (.obj fields) key = .undefined) ∧
    (∀ (pre post : List (String × Parser)) (k : String) (p : Parser)
        (value fv : JSValue) (r : String),
      (∀ kp ∈ pre, isSuccess (kp.2 (getField value kp.1)) = true) →
      p (getField value k) = .failure fv r →
      parseObjectOf (pre ++ (k, p) :: post) value
        = .failure value ("Failed at '" ++ k ++ "': " ++ r)) := by
  constructor
  · intro fields key h
    simp [getField, truthy, getProp, h]
  · intro pre post k p value fv r hpre hf
    exact parseObjectOfGo_first_failure value pre k p post fv r [] hpre hf

/-- Witness for C1, mirroring the repository tests: a missing `name` key
reads as `undefined`; the record validator `{name, age, z}` applied to
`{name: 'H', age: 'x', z: 0}` fails at `age` (after `name` succeeds,
without `z` being consulted), reporting the whole record. -/
theorem parseObjectOf_short_circuit_witness :
    getField (.obj [("some-key", JSValue.num 1)]) "name" = .undefined ∧
    parseObjectOf [("name", parseString), ("age", parseNumber), ("z", parseBoolean)]
        (.obj [("name", .str "H"), ("age", .str "x"), ("z", .num 0)])
      = .failure (.obj [("name", .str "H"), ("age", .str "x"), ("z", .num 0)])
          "Failed at 'age': typeof value is string" :=
  ⟨parseObjectOf_short_circuit.1 [("some-key", JSValue.num 1)] "name" rfl,
   parseObjectOf_short_circuit.2 [("name", parseString)] [("z", parseBoolean)] "age" parseNumber
     (.obj [("name", .str "H"), ("age", .str "x"), ("z", .num 0)]) (.str "x")
     "typeof value is string" (by decide) rfl⟩

/-- C6: on an input record whose declared fields all satisfy their child
validators (returning the field's value), the record validator succeeds
with a record holding exactly the declared fields, each bound to the
input's value at that key — extra, undeclared keys of the input are not
copied into the result. -/
theorem parseObjectOf_round_trip (validators : List (String × Parser))
    (fields : List (String × JSValue))
    (h : ∀ kp ∈ validators,
      kp.2 (getField (.obj fields) kp.1) = .success (getField (.obj fields) kp.1)) :
    parseObjectOf validators (.obj fields)
      = .success (.obj (validators.map fun kp => (kp.1, (fields.lookup kp.1).getD .undefined))) := by
  have := parseObjectOfGo_success (.obj fields) (fun kp => getField (.obj fields) kp.1)
    validators [] h
  simpa [parseObjectOf, getField_obj] using this

/-- Witness for C6 at the repository's record test, extended with an
undeclared extra key that is dropped from the (re-ordered, declared-only)
result. -/
theorem parseObjectOf_round_trip_witness :
    parseObjectOf [("artist", parseString), ("yearReleased", parseNumber), ("name", parseString)]
        (.obj [("artist", .str "The Beatles"), ("name", .str "Revolver"),
               ("yearReleased", .num 1966), ("extra", .bool true)])
      = .success (.obj [("artist", .str "The Beatles"), ("yearReleased", .num 1966),
                        ("name", .str "Revolver")]) := by
  have := parseObjectOf_round_trip
    [("artist", parseString), ("yearReleased", parseNumber), ("name", parseString)]
    [("artist", .str "The Beatles"), ("name", .str "Revolver"),
     ("yearReleased", .num 1966), ("extra", .bool true)]
    (by
      intro kp hkp
      simp only [List.mem_cons, List.not_mem_nil, or_false] at hkp
      rcases hkp with rfl | rfl | rfl <;> rfl)
  simpa using this

/-- C9: the record validator never checks the input's own runtime type:
a failure always stems from some declared field's child validator; every
falsy input reads all keys as `undefined`; hence a record validator whose
field validators all accept `undefined` succeeds on `null`; and the
empty-mapping record validator succeeds on every input with an empty
record. -/
theorem parseObjectOf_no_input_check :
    (∀ (validators : List (String × Parser)) (value : JSValue),
      isFailure (parseObjectOf validators value) = true →
      ∃ kp ∈ validators, isFailure (kp.2 (getField value kp.1)) = true) ∧
    (∀ value : JSValue, truthy value = false → ∀ key, getField value key = .undefined) ∧
    (∀ validators : List (String × Parser),
      (∀ kp ∈ validators, isSuccess (kp.2 .undefined) = true) →
      isSuccess (parseObjectOf validators .null) = true) ∧
    (∀ value : JSValue, parseObjectOf [] value = .success (.obj [])) := by
  refine ⟨?_, ?_, ?_, fun value => rfl⟩
  · intro validators value h
    by_contra hno
    push_neg at hno
    have hall : ∀ kp ∈ validators, isSuccess (kp.2 (getField value kp.1)) = true := by
      intro kp hkp
      have := hno kp hkp
      rw [isSuccess_eq_not_isFailure]
      cases hb : isFailure (kp.2 (getField value kp.1)) with
      | false => rfl
      | true => exact absurd hb this
    have hs := parseObjectOfGo_isSuccess value validators [] hall
    have h' : isFailure (parseObjectOfGo value validators []) = true := h
    rw [isSuccess_eq_not_isFailure, h'] at hs
    exact Bool.noConfusion hs
  · intro value h key
    simp [getField, h]
  · intro validators h
    apply parseObjectOfGo_isSuccess
    intro kp hkp
    have : getField .null kp.1 = .undefined := rfl
    rw [this]
    exact h kp hkp

/-- Witness for C9: a failing record validator on an (empty) object has a
failing declared field; a falsy input (`0`) reads any key as `undefined`;
a record of `undefined`-accepting validators succeeds on `null`; the
empty-mapping validator succeeds on the boolean input `true`. -/
theorem parseObjectOf_no_input_check_witness :
    (∃ kp ∈ ([("name", parseString)] : List (String × Parser)),
      isFailure (kp.2 (getField (.obj []) kp.1)) = true) ∧
    getField (.num 0) "k" = .undefined ∧
    isSuccess (parseObjectOf [("a", voidable parseNumber), ("b", parseUndefined)] .null) = true ∧
    parseObjectOf [] (.bool true) = .success (.obj []) :=
  ⟨parseObjectOf_no_input_check.1 [("name", parseString)] (.obj []) rfl,
   parseObjectOf_no_input_check.2.1 (.num 0) rfl "k",
   parseObjectOf_no_input_check.2.2.1 [("a", voidable parseNumber), ("b", parseUndefined)]
     (by decide),
   parseObjectOf_no_input_check.2.2.2 (.bool true)⟩

/-! ## Sequence validator lemmas -/

theorem reduceIdx_failure_fixed (validator : Parser) (whole : List JSValue) :
    ∀ (l : List JSValue) (i : Nat) (fv : JSValue) (fr : String),
    reduceIdx (parseArrayOfStep validator whole) l i (.failure fv fr) = .failure fv fr := by
  intro l
  induction l with
  | nil => intro i fv fr; rfl
  | cons a rest ih =>
    intro i fv fr
    simp only [reduceIdx, parseArrayOfStep, mapSuccess]
    exact ih (i + 1) fv fr

theorem reduceIdx_first_failure (validator : Parser) (whole : List JSValue) :
    ∀ (pre : List JSValue) (m : JSValue) (post : List JSValue) (i : Nat)
      (acc : List JSValue) (fv : JSValue) (r : String),
    (∀ x ∈ pre, isSuccess (validator x) = true) →
    validator m = .failure fv r →
    reduceIdx (parseArrayOfStep validator whole) (pre ++ m :: post) i (.success (.arr acc))
      = .failure (.arr whole) ("Failed at '" ++ toString (i + pre.length) ++ "': " ++ r) := by
  intro pre
  induction pre with
  | nil =>
    intro m post i acc fv r _ hm
    simp only [List.nil_append, reduceIdx, parseArrayOfStep, mapSuccess, mapResult, hm,
      keyedFailure, failure, List.length_nil, Nat.add_zero]
    exact reduceIdx_failure_fixed validator whole post (i + 1) _ _
  | cons x pre ih =>
    intro m post i acc fv r hpre hm
    have hx : isSuccess (validator x) = true := hpre x (List.mem_cons_self _ _)
    obtain ⟨vx, hvx⟩ := isSuccess_iff_exists.mp hx
    simp only [List.cons_append, reduceIdx, parseArrayOfStep, mapSuccess, mapResult, hvx, success]
    have hrec := ih m post (i + 1) (acc ++ [vx]) fv r
      (fun y hy => hpre y (List.mem_cons_of_mem _ hy)) hm
    have harith : i + (x :: pre).length = i + 1 + pre.length := by
      simp only [List.length_cons]; omega
    rw [harith]
    exact hrec

theorem reduceIdx_success_all (validator : Parser) (whole : List JSValue)
    {xs ys : List JSValue} (h : List.Forall₂ (fun x y => validator x = .success y) xs ys) :
    ∀ (i : Nat) (acc : List JSValue),
    reduceIdx (parseArrayOfStep validator whole) xs i (.success (.arr acc))
      = .success (.arr (acc ++ ys)) := by
  induction h with
  | nil => intro i acc; simp [reduceIdx, success]
  | cons hxy hrest ih =>
    intro i acc
    simp only [reduceIdx, parseArrayOfStep, mapSuccess, mapResult, hxy, success]
    rw [ih (i + 1) _]
    simp

/-! ## Claim theorems: sequence validator -/

/-- C2: the sequence validator fails immediately on a non-sequence input
with the original input as value; on a sequence it validates members in
index order, stopping at the first failing member — the members after it
(`post`) never influence the outcome — with reason
`Failed at '<index>': <child reason>` and the whole original sequence as
value; on full success it returns a newly built sequence of the validated
values in order, the empty sequence yielding an empty success. -/
theorem parseArrayOf_spec :
    (∀ (validator : Parser) (v : JSValue), (∀ es, v ≠ .arr es) →
      parseArrayOf validator v = .failure v "value is not Array.isArray") ∧
    (∀ (validator : Parser) (pre : List JSValue) (m : JSValue) (post : List JSValue)
        (fv : JSValue) (r : String),
      (∀ x ∈ pre, isSuccess (validator x) = true) →
      validator m = .failure fv r →
      parseArrayOf validator (.arr (pre ++ m :: post))
        = .failure (.arr (pre ++ m :: post))
            ("Failed at '" ++ toString pre.length ++ "': " ++ r)) ∧
    (∀ (validator : Parser) (xs ys : List JSValue),
      List.Forall₂ (fun x y => validator x = .success y) xs ys →
      parseArrayOf validator (.arr xs) = .success (.arr ys)) ∧
    (∀ validator : Parser, parseArrayOf validator (.arr []) = .success (.arr [])) := by
  refine ⟨?_, ?_, ?_, fun validator => rfl⟩
  · intro validator v h
    cases v <;> first | rfl | exact absurd rfl (h _)
  · intro validator pre m post fv r hpre hm
    have hred := reduceIdx_first_failure validator (pre ++ m :: post) pre m post 0 [] fv r hpre hm
    simp only [Nat.zero_add] at hred
    simp only [parseArrayOf, mapParser, parseArray, mapSuccess, mapFailure, success, hred, failure]
  · intro validator xs ys h
    have hred := reduceIdx_success_all validator xs h 0 []
    simp only [List.nil_append] at hred
    simp only [parseArrayOf, mapParser, parseArray, mapSuccess, mapFailure, success, hred]

/-- Witness for C2 at the repository tests: a non-array input fails; the
mixed array `[1, '2', 3]` fails at index 1 with the whole array as value;
`[1, 2]` round-trips; the empty array succeeds empty. -/
theorem parseArrayOf_spec_witness :
    parseArrayOf parseNumber (.num 9) = .failure (.num 9) "value is not Array.isArray" ∧
    parseArrayOf parseNumber (.arr [.num 1, .str "2", .num 3])
      = .failure (.arr [.num 1, .str "2", .num 3]) "Failed at '1': typeof value is string" ∧
    parseArrayOf parseNumber (.arr [.num 1, .num 2]) = .success (.arr [.num 1, .num 2]) ∧
    parseArrayOf parseNumber (.arr []) = .success (.arr []) :=
  ⟨parseArrayOf_spec.1 parseNumber (.num 9) (fun es => by simp),
   parseArrayOf_spec.2.1 parseNumber [.num 1] (.str "2") [.num 3] (.str "2")
     "typeof value is string" (by decide) rfl,
   parseArrayOf_spec.2.2.1 parseNumber [.num 1, .num 2] [.num 1, .num 2]
     (List.Forall₂.cons rfl (List.Forall₂.cons rfl List.Forall₂.nil)),
   parseArrayOf_spec.2.2.2 parseNumber⟩

/-! ## Alternation lemmas -/

theorem oneOfFold_success (value : JSValue) (v : JSValue) :
    ∀ l : List Parser,
    l.foldl (fun result validator => mapFailure result (fun _ _ => validator value))
      (.success v) = .success v := by
  intro l
  induction l with
  | nil => rfl
  | cons q rest ih => exact ih

theorem oneOfFold_all_failures (value : JSValue) :
    ∀ (l : List Parser) (init : Result), isFailure init = true →
    (∀ x ∈ l, isFailure (x value) = true) →
    isFailure
      (l.foldl (fun result validator => mapFailure result (fun _ _ => validator value)) init)
      = true := by
  intro l
  induction l with
  | nil => intro init h _; exact h
  | cons q rest ih =>
    intro init h hall
    obtain ⟨fv, fr, hf⟩ := isFailure_iff_exists.mp h
    simp only [List.foldl_cons, hf, mapFailure]
    exact ih (q value) (hall q (List.mem_cons_self _ _))
      (fun x hx => hall x (List.mem_cons_of_mem _ hx))

theorem oneOfFold_skip_failures (value : JSValue) :
    ∀ (pre rest : List Parser) (init : Result), isFailure init = true →
    (∀ x ∈ pre, isFailure (x value) = true) →
    ∃ init', isFailure init' = true ∧
      (pre ++ rest).foldl (fun result validator => mapFailure result (fun _ _ => validator value))
          init
        = rest.foldl (fun result validator => mapFailure result (fun _ _ => validator value))
            init' := by
  intro pre
  induction pre with
  | nil => intro rest init h _; exact ⟨init, h, rfl⟩
  | cons q pre ih =>
    intro rest init h hall
    obtain ⟨fv, fr, hf⟩ := isFailure_iff_exists.mp h
    simp only [List.cons_append, List.foldl_cons, hf, mapFailure]
    exact ih rest (q value) (hall q (List.mem_cons_self _ _))
      (fun x hx => hall x (List.mem_cons_of_mem _ hx))

/-! ## Claim theorems: alternation -/

/-- Counterexample to C5: with a single validator (a one-element list),
`parseOneOf` returns that validator itself, so a total failure carries
the child's own reason, not the synthesized
`'<value>' did not match any of 1 validators` count-based reason the
claim requires for every non-empty validator list. -/
theorem parseOneOf_single_counterexample :
    parseOneOf parseNumber [] (.str "a") = .failure (.str "a") "typeof value is string" ∧
    ("typeof value is string" : String)
      ≠ "'" ++ jsToString (.str "a") ++ "' did not match any of " ++ toString (1 : Nat)
          ++ " validators" :=
  ⟨rfl, by decide⟩

/-- C5 (amended): `parseOneOf` tries the given validators strictly in
order and returns the first success, the validators after it (`post`)
never being consulted; when *two or more* validators are given and all
fail, it returns a synthesized failure with the original input as value
and reason `'<value>' did not match any of <N> validators`, `N` the total
count including the first, the child reasons being discarded; when
exactly one validator is given, `parseOneOf` returns that validator's
result unchanged (no synthesized reason). -/
theorem parseOneOf_spec :
    (∀ (p : Parser) (parsers : List Parser) (value : JSValue)
        (pre : List Parser) (q : Parser) (post : List Parser) (v : JSValue),
      p :: parsers = pre ++ q :: post →
      (∀ x ∈ pre, isFailure (x value) = true) →
      q value = .success v →
      parseOneOf p parsers value = .success v) ∧
    (∀ (p : Parser) (parsers : List Parser) (value : JSValue),
      parsers ≠ [] →
      (∀ x ∈ p :: parsers, isFailure (x value) = true) →
      parseOneOf p parsers value
        = .failure value
            ("'" ++ jsToString value ++ "' did not match any of "
              ++ toString (parsers.length + 1) ++ " validators")) ∧
    (∀ (p : Parser) (value : JSValue), parseOneOf p [] value = p value) := by
  refine ⟨?_, ?_, fun p value => rfl⟩
  · intro p parsers value pre q post v heq hpre hq
    cases pre with
    | nil =>
      simp only [List.nil_append] at heq
      injection heq with h1 h2
      subst h1
      subst h2
      cases parsers with
      | nil => exact hq
      | cons r rest =>
        simp only [parseOneOf]
        rw [hq, oneOfFold_success value v (r :: rest)]
        rfl
    | cons p0 pre' =>
      injection heq with h1 h2
      subst h1
      subst h2
      simp only [List.append_eq]
      have hp0 : isFailure (p value) = true := hpre p (List.mem_cons_self _ _)
      obtain ⟨init', hinit', hfold⟩ := oneOfFold_skip_failures value pre' (q :: post) (p value)
        hp0 (fun x hx => hpre x (List.mem_cons_of_mem _ hx))
      obtain ⟨fv, fr, hfi⟩ := isFailure_iff_exists.mp hinit'
      cases hpp : pre' ++ q :: post with
      | nil => exact absurd hpp (by simp)
      | cons r rest =>
        simp only [parseOneOf]
        rw [← hpp, hfold, hfi, List.foldl_cons]
        have hstep : mapFailure (Result.failure fv fr) (fun _ _ => q value) = q value := rfl
        rw [hstep, hq, oneOfFold_success value v post]
        rfl
  · intro p parsers value hne hall
    match parsers, hne with
    | r :: rest, _ =>
      simp only [parseOneOf]
      have hfold := oneOfFold_all_failures value (r :: rest) (p value)
        (hall p (List.mem_cons_self _ _))
        (fun x hx => hall x (List.mem_cons_of_mem _ hx))
      obtain ⟨fv, fr, hf⟩ := isFailure_iff_exists.mp hfold
      rw [hf]
      rfl

/-- Witness for C5 (amended) at the repository tests: the second of three
validators matches `'2015'`; none of the three matches `null`, yielding
the count-based reason; a singleton `parseOneOf` acts as the wrapped
validator. -/
theorem parseOneOf_spec_witness :
    parseOneOf parseNumber [parseString, parseBoolean] (.str "2015") = .success (.str "2015") ∧
    parseOneOf parseNumber [parseString, parseBoolean] .null
      = .failure .null "'null' did not match any of 3 validators" ∧
    parseOneOf parseBoolean [] (.num 3) = parseBoolean (.num 3) :=
  ⟨parseOneOf_spec.1 parseNumber [parseString, parseBoolean] (.str "2015")
     [parseNumber] parseString [parseBoolean] (.str "2015") rfl (by decide) rfl,
   parseOneOf_spec.2.1 parseNumber [parseString, parseBoolean] .null (by simp) (by decide),
   parseOneOf_spec.2.2 parseBoolean (.num 3)⟩

/-! ## Indexed-map validator lemmas -/

theorem parseIndexedObjectOfGo_first_failure (p : Parser) (value : JSValue) :
    ∀ (pre : List (String × JSValue)) (k : String) (fv : JSValue)
      (post : List (String × JSValue)) (ffv : JSValue) (r : String)
      (acc : List (String × JSValue)),
    (∀ kv ∈ pre, isSuccess (p kv.2) = true) →
    p fv = .failure ffv r →
    parseIndexedObjectOfGo p value (pre ++ (k, fv) :: post) acc
      = .failure value ("Failed at '" ++ k ++ "': " ++ r) := by
  intro pre
  induction pre with
  | nil =>
    intro k fv post ffv r acc _ hf
    simp [parseIndexedObjectOfGo, hf, keyedFailure, failure]
  | cons kv0 pre ih =>
    intro k fv post ffv r acc hpre hf
    obtain ⟨k0, v0⟩ := kv0
    have h0 : isSuccess (p v0) = true := hpre (k0, v0) (List.mem_cons_self _ _)
    obtain ⟨pv0, hpv0⟩ := isSuccess_iff_exists.mp h0
    simp only [List.cons_append, parseIndexedObjectOfGo, hpv0]
    exact ih k fv post ffv r _ (fun kv hkv => hpre kv (List.mem_cons_of_mem _ hkv)) hf

theorem parseIndexedObjectOfGo_success (p : Parser) (value : JSValue)
    (w : String × JSValue → JSValue) :
    ∀ (entries : List (String × JSValue)) (acc : List (String × JSValue)),
    (∀ kv ∈ entries, p kv.2 = .success (w kv)) →
    parseIndexedObjectOfGo p value entries acc
      = .success (.obj (acc ++ entries.map fun kv => (kv.1, w kv))) := by
  intro entries
  induction entries with
  | nil => intro acc _; simp [parseIndexedObjectOfGo, success]
  | cons kv0 rest ih =>
    intro acc h
    obtain ⟨k0, v0⟩ := kv0
    have h0 : p v0 = .success (w (k0, v0)) := h (k0, v0) (List.mem_cons_self _ _)
    simp only [parseIndexedObjectOfGo, h0]
    have := ih (acc ++ [(k0, w (k0, v0))]) (fun kv hkv => h kv (List.mem_cons_of_mem _ hkv))
    simpa using this

/-! ## Claim theorems: indexed-map validator -/

/-- C8: the key-indexed-map validator fails on `null` or `undefined`
input with reason `value is null or undefined`; on an input of
non-object runtime category it fails with the scalar type-tag reason; on
an object-category input it validates the own entries' values in order,
stopping at the first failing key with the whole input as value and
reason `Failed at '<key>': <reason>` (the entries after it never
influencing the outcome); on full success it returns a newly built map
holding every key of the input with its validated value. -/
theorem parseIndexedObjectOf_spec :
    (∀ p : Parser,
      parseIndexedObjectOf p .null = .failure .null "value is null or undefined" ∧
      parseIndexedObjectOf p .undefined = .failure .undefined "value is null or undefined") ∧
    (∀ (p : Parser) (v : JSValue), v ≠ .null → v ≠ .undefined → typeofTag v ≠ "object" →
      parseIndexedObjectOf p v = .failure v ("typeof value is " ++ typeofTag v)) ∧
    (∀ (p : Parser) (value : JSValue) (pre : List (String × JSValue)) (k : String)
        (fv : JSValue) (post : List (String × JSValue)) (ffv : JSValue) (r : String),
      typeofTag value = "object" → value ≠ .null →
      jsOwnEntries value = pre ++ (k, fv) :: post →
      (∀ kv ∈ pre, isSuccess (p kv.2) = true) →
      p fv = .failure ffv r →
      parseIndexedObjectOf p value = .failure value ("Failed at '" ++ k ++ "': " ++ r)) ∧
    (∀ (p : Parser) (value : JSValue) (w : String × JSValue → JSValue),
      typeofTag value = "object" → value ≠ .null →
      (∀ kv ∈ jsOwnEntries value, p kv.2 = .success (w kv)) →
      parseIndexedObjectOf p value
        = .success (.obj ((jsOwnEntries value).map fun kv => (kv.1, w kv)))) := by
  refine ⟨fun p => ⟨rfl, rfl⟩, ?_, ?_, ?_⟩
  · intro p v h1 h2 h3
    cases v with
    | null => exact absurd rfl h1
    | undefined => exact absurd rfl h2
    | arr es => exact absurd rfl h3
    | obj fs => exact absurd rfl h3
    | bool b => rfl
    | num n => rfl
    | str s => rfl
  · intro p value pre k fv post ffv r htag hnull hentries hpre hf
    cases value with
    | null => exact absurd rfl hnull
    | undefined => exact absurd htag (show ¬("undefined" : String) = "object" by decide)
    | bool b => exact absurd htag (show ¬("boolean" : String) = "object" by decide)
    | num n => exact absurd htag (show ¬("number" : String) = "object" by decide)
    | str s => exact absurd htag (show ¬("string" : String) = "object" by decide)
    | arr es =>
      show parseIndexedObjectOfGo p (.arr es) (jsOwnEntries (.arr es)) []
          = .failure (.arr es) ("Failed at '" ++ k ++ "': " ++ r)
      rw [hentries]
      exact parseIndexedObjectOfGo_first_failure p (.arr es) pre k fv post ffv r [] hpre hf
    | obj fs =>
      show parseIndexedObjectOfGo p (.obj fs) (jsOwnEntries (.obj fs)) []
          = .failure (.obj fs) ("Failed at '" ++ k ++ "': " ++ r)
      rw [hentries]
      exact parseIndexedObjectOfGo_first_failure p (.obj fs) pre k fv post ffv r [] hpre hf
  · intro p value w htag hnull hall
    cases value with
    | null => exact absurd rfl hnull
    | undefined => exact absurd htag (show ¬("undefined" : String) = "object" by decide)
    | bool b => exact absurd htag (show ¬("boolean" : String) = "object" by decide)
    | num n => exact absurd htag (show ¬("number" : String) = "object" by decide)
    | str s => exact absurd htag (show ¬("string" : String) = "object" by decide)
    | arr es =>
      show parseIndexedObjectOfGo p (.arr es) (jsOwnEntries (.arr es)) []
          = .success (.obj ((jsOwnEntries (.arr es)).map fun kv => (kv.1, w kv)))
      have := parseIndexedObjectOfGo_success p (.arr es) w (jsOwnEntries (.arr es)) [] hall
      simpa using this
    | obj fs =>
      show parseIndexedObjectOfGo p (.obj fs) (jsOwnEntries (.obj fs)) []
          = .success (.obj ((jsOwnEntries (.obj fs)).map fun kv => (kv.1, w kv)))
      have := parseIndexedObjectOfGo_success p (.obj fs) w (jsOwnEntries (.obj fs)) [] hall
      simpa using this

/-- Witness for C8 at concrete inputs: null/undefined rejection; the
type-tag failure on a number; the keyed first-failure on
`{a: 1, b: 'x', c: 2}` (reported at `b`, `c` unreached); and the
full-success rebuild of `{a: 1, b: 2}`. -/
theorem parseIndexedObjectOf_spec_witness :
    parseIndexedObjectOf parseNumber .null = .failure .null "value is null or undefined" ∧
    parseIndexedObjectOf parseNumber .undefined = .failure .undefined "value is null or undefined" ∧
    parseIndexedObjectOf parseNumber (.num 3) = .failure (.num 3) "typeof value is number" ∧
    parseIndexedObjectOf parseNumber
        (.obj [("a", .num 1), ("b", .str "x"), ("c", .num 2)])
      = .failure (.obj [("a", .num 1), ("b", .str "x"), ("c", .num 2)])
          "Failed at 'b': typeof value is string" ∧
    parseIndexedObjectOf parseNumber (.obj [("a", .num 1), ("b", .num 2)])
      = .success (.obj [("a", .num 1), ("b", .num 2)]) :=
  ⟨(parseIndexedObjectOf_spec.1 parseNumber).1,
   (parseIndexedObjectOf_spec.1 parseNumber).2,
   parseIndexedObjectOf_spec.2.1 parseNumber (.num 3) (by simp) (by simp) (by decide),
   parseIndexedObjectOf_spec.2.2.1 parseNumber
     (.obj [("a", .num 1), ("b", .str "x"), ("c", .num 2)])
     [("a", .num 1)] "b" (.str "x") [("c", .num 2)] (.str "x") "typeof value is string"
     rfl (by simp) rfl (by decide) rfl,
   parseIndexedObjectOf_spec.2.2.2 parseNumber (.obj [("a", .num 1), ("b", .num 2)])
     (fun kv => kv.2) rfl (by simp)
     (by
       intro kv hkv
       simp only [jsOwnEntries, List.mem_cons, List.not_mem_nil, or_false] at hkv
       rcases hkv with rfl | rfl <;> rfl)⟩

end Parseroni
